import Mathlib

set_option maxHeartbeats 1000000

/-!
Verification of the service-call enrichment engine (translator, classifier,
result materializer, incremental differencer, merge combiner).

DataFrames are modelled as lists of rows; a missing cell (NaN) is `none`.
External services (translation, classification) are modelled as oracle
functions passed explicitly; a raised exception is an `Option`/failure value.
-/

/-! ## Incremental differencer and merge combiner (src/utils.py) -/

/-- First-occurrence deduplication, mirroring `pandas.Series.unique` /
Python `set` membership over a column of values. -/
def uniqueFirst : List String → List String
  | [] => []
  | x :: xs =>
    let rest := uniqueFirst xs
    if x ∈ rest then rest else x :: rest

/-- Model of `find_new_service_orders` (src/utils.py lines 69-106): returns the rows of
`new_df` whose natural key is absent from the processed set. Rows are
abstracted over a row type `α` with key projection `key` (the `id_column`).
`processed_df = none` models a missing processed file. -/
def find_new_service_orders {α : Type} (key : α → String)
    (new_df : List α) (processed_df : Option (List α)) : List α :=
  match processed_df with
  | none => new_df
  | some p =>
    if p.isEmpty then new_df
    else
      let existing_orders := uniqueFirst (p.map key)
      let new_orders := uniqueFirst (new_df.map key)
      let orders_to_process := new_orders.filter (fun k => decide (k ∉ existing_orders))
      if orders_to_process.isEmpty then []
      else new_df.filter (fun r => decide (key r ∈ orders_to_process))

/-- Model of `merge_processed_data` (src/utils.py lines 109-131): concatenate existing
rows then new rows; identity on `new_df` when there is no existing data. -/
def merge_processed_data {α : Type} (existing_df : Option (List α)) (new_df : List α) : List α :=
  match existing_df with
  | none => new_df
  | some e => if e.isEmpty then new_df else e ++ new_df

/-! ## Classification data model (src/classifier.py, spec section 3) -/

/-- One classified problem: the five string fields read from the service
response via permissive access with default "". -/
structure Problem where
  part : String
  failure_mode : String
  fix : String
  confidence : String
  supporting_text : String
deriving DecidableEq

/-- Analysis block of a classification result. -/
structure ClassificationAnalysis where
  total_problems_found : Int
  confidence_level : String
deriving DecidableEq

/-- Parsed classification service response. -/
structure ClassificationResult where
  analysis : ClassificationAnalysis
  problems : List Problem
deriving DecidableEq

/-- The degraded default assigned after retry exhaustion
(src/classifier.py lines 140-143): zero problems, confidence low. -/
def degradedResult : ClassificationResult :=
  ⟨⟨0, "low"⟩, []⟩

/-! ## JSON serialization of the problems list (json.dumps / json.loads)

`_add_results_to_dataframe` stores `json.dumps(problems)` in the
`All_Problems_JSON` column. We model `json.dumps` on a list of problem
records (string fields, keys in the response order) and a matching
recursive-descent parser for `json.loads`. Escaping follows `json.dumps`:
quote, backslash and control characters are escaped (named escapes plus
u00XX); other characters are emitted verbatim. -/

def hexDigitChar (n : Nat) : Char :=
  if n < 10 then Char.ofNat (48 + n) else Char.ofNat (87 + n)

def escapeChar (c : Char) : List Char :=
  if c = '"' then ['\\', '"']
  else if c = '\\' then ['\\', '\\']
  else if c = '\n' then ['\\', 'n']
  else if c = '\t' then ['\\', 't']
  else if c = '\r' then ['\\', 'r']
  else if c = '\x08' then ['\\', 'b']
  else if c = '\x0c' then ['\\', 'f']
  else if c.toNat < 32 then
    ['\\', 'u', '0', '0', hexDigitChar (c.toNat / 16), hexDigitChar (c.toNat % 16)]
  else [c]

def escapeChars : List Char → List Char
  | [] => []
  | c :: cs => escapeChar c ++ escapeChars cs

/-- Literal fragment opening an object and the "part" key, up to the opening
quote of its value. -/
def midPartTail : List Char := "\"part\": \"".data

def midPart : List Char := '\x7b' :: midPartTail

/-- Separator fragments between a closing value quote and the next opening
value quote. -/
def midFailureTail : List Char := ", \"failure_mode\": \"".data

def midFixTail : List Char := ", \"fix\": \"".data

def midConfidenceTail : List Char := ", \"confidence\": \"".data

def midSupportingTail : List Char := ", \"supporting_text\": \"".data

def dumpsProblemChars (p : Problem) : List Char :=
  midPart ++
  (escapeChars p.part.data ++
  ('"' ::
  (midFailureTail ++
  (escapeChars p.failure_mode.data ++
  ('"' ::
  (midFixTail ++
  (escapeChars p.fix.data ++
  ('"' ::
  (midConfidenceTail ++
  (escapeChars p.confidence.data ++
  ('"' ::
  (midSupportingTail ++
  (escapeChars p.supporting_text.data ++
  ('"' :: ['\x7d']))))))))))))))

def joinCommaSpace : List (List Char) → List Char
  | [] => []
  | [x] => x
  | x :: y :: ys => x ++ ',' :: ' ' :: joinCommaSpace (y :: ys)

/-- Model of `json.dumps(problems)` with the default separators. -/
def dumpsProblems (ps : List Problem) : String :=
  ⟨'[' :: (joinCommaSpace (ps.map dumpsProblemChars) ++ [']'])⟩

def unescapeChar (e : Char) : Option Char :=
  if e = '"' then some '"'
  else if e = '\\' then some '\\'
  else if e = '/' then some '/'
  else if e = 'n' then some '\n'
  else if e = 't' then some '\t'
  else if e = 'r' then some '\r'
  else if e = 'b' then some '\x08'
  else if e = 'f' then some '\x0c'
  else none

def hexVal (c : Char) : Option Nat :=
  if '0' ≤ c ∧ c ≤ '9' then some (c.toNat - 48)
  else if 'a' ≤ c ∧ c ≤ 'f' then some (c.toNat - 87)
  else if 'A' ≤ c ∧ c ≤ 'F' then some (c.toNat - 55)
  else none

/-- Parse a JSON string body up to and including the closing quote. -/
def parseJStringBody : List Char → Option (List Char × List Char)
  | [] => none
  | c :: rest =>
    if c = '"' then some ([], rest)
    else if c = '\\' then
      match rest with
      | [] => none
      | e :: r =>
        if e = 'u' then
          match r with
          | h1 :: h2 :: h3 :: h4 :: r2 =>
            match hexVal h1, hexVal h2, hexVal h3, hexVal h4 with
            | some a, some b, some c2, some d =>
              match parseJStringBody r2 with
              | some (cs, rest2) =>
                some (Char.ofNat (((a * 16 + b) * 16 + c2) * 16 + d) :: cs, rest2)
              | none => none
            | _, _, _, _ => none
          | _ => none
        else
          match unescapeChar e with
          | some c2 =>
            match parseJStringBody r with
            | some (cs, rest2) => some (c2 :: cs, rest2)
            | none => none
          | none => none
    else
      match parseJStringBody rest with
      | some (cs, rest2) => some (c :: cs, rest2)
      | none => none

def expectChars : List Char → List Char → Option (List Char)
  | [], l => some l
  | _ :: _, [] => none
  | p :: ps, c :: cs => if c = p then expectChars ps cs else none

def parseProblem (l : List Char) : Option (Problem × List Char) :=
  match expectChars midPart l with
  | none => none
  | some r1 =>
  match parseJStringBody r1 with
  | none => none
  | some (v1, r2) =>
  match expectChars midFailureTail r2 with
  | none => none
  | some r3 =>
  match parseJStringBody r3 with
  | none => none
  | some (v2, r4) =>
  match expectChars midFixTail r4 with
  | none => none
  | some r5 =>
  match parseJStringBody r5 with
  | none => none
  | some (v3, r6) =>
  match expectChars midConfidenceTail r6 with
  | none => none
  | some r7 =>
  match parseJStringBody r7 with
  | none => none
  | some (v4, r8) =>
  match expectChars midSupportingTail r8 with
  | none => none
  | some r9 =>
  match parseJStringBody r9 with
  | none => none
  | some (v5, r10) =>
  match r10 with
  | [] => none
  | c :: r11 => if c = '\x7d' then some (⟨⟨v1⟩, ⟨v2⟩, ⟨v3⟩, ⟨v4⟩, ⟨v5⟩⟩, r11) else none

def parseProblemsAux : Nat → List Char → Option (List Problem × List Char)
  | 0, _ => none
  | fuel + 1, l =>
    match parseProblem l with
    | none => none
    | some (p, rest) =>
      match rest with
      | [] => none
      | c :: r =>
        if c = ']' then some ([p], r)
        else if c = ',' then
          match r with
          | [] => none
          | c2 :: r2 =>
            if c2 = ' ' then
              match parseProblemsAux fuel r2 with
              | some (ps, r3) => some (p :: ps, r3)
              | none => none
            else none
        else none

/-- Model of `json.loads` specialized to the shape produced for `All_Problems_JSON`:
a JSON array of problem objects, requiring full consumption of the input. -/
def parseProblems (s : String) : Option (List Problem) :=
  match s.data with
  | [] => none
  | c :: rest =>
    if c = '[' then
      match rest with
      | [] => none
      | c2 :: r =>
        if c2 = ']' then (if r = [] then some [] else none)
        else
          match parseProblemsAux s.length rest with
          | some (ps, r2) => if r2 = [] then some ps else none
          | none => none
    else none

/-! ## Classification worker (src/classifier.py lines 112-145)

`classify_service_call` performs one network call and either returns a parsed
`ClassificationResult` or raises; it is modelled by an oracle giving the
outcome of each attempt (`none` = an exception was raised). Attempt counters
are Python ints, modelled as `Int` so non-positive `max_attempts` behaves as
in the source. -/

/-- The `while attempts < max_attempts` retry loop of `process_single_call`. -/
def processAttempts (oracle : Int → Option ClassificationResult)
    (max_attempts attempts : Int) : Option ClassificationResult :=
  if _h : attempts < max_attempts then
    match oracle attempts with
    | some result => some result
    | none =>
      if attempts + 1 = max_attempts then some degradedResult
      else processAttempts oracle max_attempts (attempts + 1)
  else none
termination_by (max_attempts - attempts).toNat
decreasing_by simp_wf; omega

/-- Model of `process_single_call`: returns the row index paired with the classification
outcome; `none` models the `return row_index, None` fall-through reached only
when the loop body never runs. -/
def process_single_call (oracle : Int → Option ClassificationResult)
    (row_index : Nat) (max_attempts : Int) : Nat × Option ClassificationResult :=
  (row_index, processAttempts oracle max_attempts 0)

/-! ## Result materializer (src/classifier.py lines 195-301) -/

/-- One input row; extra pass-through columns are irrelevant to the claims
and omitted (the four text fields feed the oracle, not the materializer). -/
structure Record where
  SERVICE_ORDER : String
  REASON_FOR_SERVICE : String
  SPECIAL_NOTES : String
  SERVICE_PERFORMED : String
  ISSUE_REPORTED : String
deriving DecidableEq

/-- The classification-derived columns added to the enriched table. -/
structure EnrichedCols where
  Total_Problems : Int
  Overall_Confidence : String
  Part_Assembly_Concat : String
  Failure_Mode_Concat : String
  Fix_Concat : String
  Confidence_Concat : String
  Primary_Part : String
  Primary_Failure : String
  Primary_Fix : String
  Primary_Confidence : String
  All_Problems_JSON : String
  Part_1 : String
  Failure_Mode_1 : String
  Fix_1 : String
  Confidence_1 : String
  Part_2 : String
  Failure_Mode_2 : String
  Fix_2 : String
  Confidence_2 : String
  Part_3 : String
  Failure_Mode_3 : String
  Fix_3 : String
  Confidence_3 : String
deriving DecidableEq

/-- Column initialization (src/classifier.py lines 210-228). -/
def initCols : EnrichedCols :=
  ⟨0, "", "", "", "", "", "", "", "", "", "", "", "", "", "", "", "", "", "", "", "", "", ""⟩

/-- Fixed-slot view: slot `n` (0-based) of `problems[:3]`, default "". -/
def slotField (problems : List Problem) (n : Nat) (f : Problem → String) : String :=
  match (problems.take 3).get? n with
  | some p => f p
  | none => ""

/-- Per-record column update for a present result
(src/classifier.py lines 235-270). -/
def applyResult (r : ClassificationResult) : EnrichedCols :=
  let problems := r.problems
  { Total_Problems := r.analysis.total_problems_found
    Overall_Confidence := r.analysis.confidence_level
    Part_Assembly_Concat :=
      if problems.isEmpty then "" else String.intercalate " | " (problems.map (fun p => p.part))
    Failure_Mode_Concat :=
      if problems.isEmpty then ""
      else String.intercalate " | " (problems.map (fun p => p.failure_mode))
    Fix_Concat :=
      if problems.isEmpty then "" else String.intercalate " | " (problems.map (fun p => p.fix))
    Confidence_Concat :=
      if problems.isEmpty then ""
      else String.intercalate " | " (problems.map (fun p => p.confidence))
    Primary_Part := match problems with | [] => "" | p :: _ => p.part
    Primary_Failure := match problems with | [] => "" | p :: _ => p.failure_mode
    Primary_Fix := match problems with | [] => "" | p :: _ => p.fix
    Primary_Confidence := match problems with | [] => "" | p :: _ => p.confidence
    All_Problems_JSON := dumpsProblems problems
    Part_1 := slotField problems 0 (fun p => p.part)
    Failure_Mode_1 := slotField problems 0 (fun p => p.failure_mode)
    Fix_1 := slotField problems 0 (fun p => p.fix)
    Confidence_1 := slotField problems 0 (fun p => p.confidence)
    Part_2 := slotField problems 1 (fun p => p.part)
    Failure_Mode_2 := slotField problems 1 (fun p => p.failure_mode)
    Fix_2 := slotField problems 1 (fun p => p.fix)
    Confidence_2 := slotField problems 1 (fun p => p.confidence)
    Part_3 := slotField problems 2 (fun p => p.part)
    Failure_Mode_3 := slotField problems 2 (fun p => p.failure_mode)
    Fix_3 := slotField problems 2 (fun p => p.fix)
    Confidence_3 := slotField problems 2 (fun p => p.confidence) }

/-- One row of the normalized problems table (approach 4). -/
structure NormalizedRow where
  SERVICE_ORDER : String
  Row_Index : Nat
  Problem_Number : Nat
  Part : String
  Failure_Mode : String
  Fix : String
  Confidence : String
  Supporting_Text : String
deriving DecidableEq

/-- Placeholder row for a record with zero problems
(src/classifier.py lines 286-296). -/
def unknownRow (service_order : String) (idx : Nat) : NormalizedRow :=
  ⟨service_order, idx, 1, "Unknown", "Unknown", "Unknown", "low", ""⟩

/-- Normalized rows contributed by one record: one row per problem with
1-based `Problem_Number` (src/classifier.py lines 272-296), plus the
placeholder when the problems list is empty. -/
def problemRows (service_order : String) (idx : Nat) (problems : List Problem) :
    List NormalizedRow :=
  (problems.enum.map (fun np =>
    ⟨service_order, idx, np.1 + 1, np.2.part, np.2.failure_mode, np.2.fix,
      np.2.confidence, np.2.supporting_text⟩))
  ++ (if problems.isEmpty then [unknownRow service_order idx] else [])

/-- Reads `df.loc[idx, "SERVICE_ORDER"]` over the positional index. -/
def serviceOrderAt (df : List Record) (idx : Nat) : String :=
  ((df.get? idx).map (fun rec => rec.SERVICE_ORDER)).getD ""

/-- Lookup in the results dict (keys are unique row indices; the list keeps
the completion-order iteration of `results.items()`). -/
def lookupResult (results : List (Nat × Option ClassificationResult)) (idx : Nat) :
    Option (Option ClassificationResult) :=
  (results.find? (fun e => e.1 == idx)).map (fun e => e.2)

/-- Enriched table produced by `_add_results_to_dataframe`: each row keeps its
record and carries `initCols` updated from its result when present
(`if result is None: continue` leaves the initialized defaults). -/
def add_results_enriched (df : List Record)
    (results : List (Nat × Option ClassificationResult)) : List (Record × EnrichedCols) :=
  df.enum.map (fun irec =>
    (irec.2, match lookupResult results irec.1 with
             | some (some r) => applyResult r
             | _ => initCols))

/-- Normalized problems table accumulated over `results.items()` in iteration
order (src/classifier.py lines 272-299). -/
def add_results_normalized (df : List Record) :
    List (Nat × Option ClassificationResult) → List NormalizedRow
  | [] => []
  | (i, some r) :: es =>
    problemRows (serviceOrderAt df i) i r.problems ++ add_results_normalized df es
  | (_, none) :: es => add_results_normalized df es

/-! ## Dedup translator (src/translator.py)

Cells are `Option String` (`none` = NaN). The translation service
(`translate_text`) is an oracle `String → Option String`; `none` models a
raised exception. With `return_exceptions=True`, `asyncio.gather` returns the
per-task outcomes (exceptions as values) instead of raising, so the
batch-level `except` fallback (lines 76-84) is not reached. -/

/-- Python `str.strip()`: drop leading and trailing whitespace. Defined
structurally over the character list (Lean `String.trim` computes through
well-founded recursion, which blocks concrete evaluation in proofs). -/
def pyStrip (s : String) : String :=
  ⟨((s.data.dropWhile Char.isWhitespace).reverse.dropWhile Char.isWhitespace).reverse⟩

/-- Test `pd.isna(text) or str(text).strip() == ''` (src/translator.py line 56). -/
def isBlankCell (c : Option String) : Bool :=
  match c with
  | none => true
  | some s => pyStrip s == ""

/-- Python `str(text)`; only applied to non-missing cells on the call paths here. -/
def strOfCell (c : Option String) : String :=
  match c with
  | none => "nan"
  | some s => s

/-- Batching by `range(0, total, batch_size)` slicing (src/translator.py lines 48-49).
Python raises on a zero step, so a zero batch size yields no batches here
and all claims about batching assume a positive batch size. -/
def chunks {α : Type} (bs : Nat) : List α → List (List α)
  | [] => []
  | x :: xs =>
    if _hbs : bs = 0 then []
    else (x :: xs).take bs :: chunks bs ((x :: xs).drop bs)
termination_by l => l.length
decreasing_by simp_wf; omega

/-- One batch (src/translator.py lines 49-86): blank/missing values map to ""
without a task; each valid text gets exactly one `translate_text` call; a
failed call falls back to the original text. Returns the extended map and the
number of service calls issued. -/
def processBatch (svc : String → Option String)
    (translation_map : List (Option String × String)) (batch : List (Option String)) :
    List (Option String × String) × Nat :=
  let first := batch.foldl
    (fun acc text =>
      if isBlankCell text then (acc.1 ++ [(text, "")], acc.2)
      else (acc.1, acc.2 ++ [text]))
    (translation_map, ([] : List (Option String)))
  let valid_texts := first.2
  let results := valid_texts.map (fun t => svc (strOfCell t))
  (first.1 ++ (valid_texts.zip results).map
      (fun tr => (tr.1, match tr.2 with | some tt => tt | none => strOfCell tr.1)),
   valid_texts.length)

/-- Model of `translate_unique_values` (src/translator.py lines 31-92): builds the
translation map over the unique values in batches; also counts the external
translation calls issued. -/
def translate_unique_values (svc : String → Option String) (batch_size : Nat)
    (unique_values : List (Option String)) : List (Option String × String) × Nat :=
  (chunks batch_size unique_values).foldl
    (fun acc batch =>
      let step := processBatch svc acc.1 batch
      (step.1, acc.2 + step.2))
    ([], 0)

/-- Python dict lookup in the translation map. -/
def lookupMap (m : List (Option String × String)) (k : Option String) : Option String :=
  (m.find? (fun e => e.1 == k)).map (fun e => e.2)

/-- One column of `translate_dataframe_async` (src/translator.py lines
121-158): dropna + unique, translate the unique values, `Series.map` through
the dict (values absent from the dict become NaN), then `fillna` with the
original column. Returns `none` when there are no non-null values
(`total_unique == 0` skips the column and creates no `_EN` column). -/
def translate_column (svc : String → Option String) (batch_size : Nat)
    (col : List (Option String)) : Option (List (Option String)) :=
  let unique_values := uniqueFirst (col.filterMap id)
  if unique_values.length = 0 then none
  else
    let m := (translate_unique_values svc batch_size (unique_values.map some)).1
    some (col.map (fun c =>
      match (match c with
             | none => none
             | some v => lookupMap m (some v)) with
      | some t => some t
      | none => c))

/-- The per-value outcome of the translation stage: blank/missing values get
"", translated values get the service result, failures fall back to the
original text. -/
def translatedValue (svc : String → Option String) (t : Option String) : String :=
  if isBlankCell t then ""
  else match svc (strOfCell t) with
       | some tt => tt
       | none => strOfCell t

/-- The fold over batches inside `translate_unique_values`. -/
def translateFold (svc : String → Option String)
    (acc : List (Option String × String) × Nat)
    (batches : List (List (Option String))) : List (Option String × String) × Nat :=
  batches.foldl (fun acc batch =>
    let step := processBatch svc acc.1 batch
    (step.1, acc.2 + step.2)) acc

/-- Membership in the deduplicated list is membership in the original. -/
theorem mem_uniqueFirst {x : String} : ∀ {l : List String}, x ∈ uniqueFirst l ↔ x ∈ l := by
  intro l
  induction l with
  | nil => simp [uniqueFirst]
  | cons a as ih =>
    simp only [uniqueFirst]
    by_cases h : a ∈ uniqueFirst as
    · rw [if_pos h]
      simp only [List.mem_cons, ih]
      constructor
      · intro hx; exact Or.inr hx
      · rintro (rfl | hx)
        · exact ih.mp h
        · exact hx
    · rw [if_neg h]
      simp only [List.mem_cons, ih]

theorem nodup_uniqueFirst : ∀ (l : List String), (uniqueFirst l).Nodup := by
  intro l
  induction l with
  | nil => simp [uniqueFirst]
  | cons a as ih =>
    simp only [uniqueFirst]
    by_cases h : a ∈ uniqueFirst as
    · simpa [h] using ih
    · simpa [h] using ih

theorem find_new_eq_filter {α : Type} (key : α → String) (new_df p : List α) (hp : p ≠ []) :
    find_new_service_orders key new_df (some p)
      = new_df.filter (fun r =>
          decide (key r ∈ new_df.map key ∧ key r ∉ p.map key)) := by
  simp only [find_new_service_orders, List.isEmpty_iff, hp, if_false]
  by_cases hempty :
      (uniqueFirst (new_df.map key)).filter
        (fun k => decide (k ∉ uniqueFirst (p.map key))) = []
  · rw [if_pos (by simpa [List.isEmpty_iff] using hempty)]
    have hall : ∀ r ∈ new_df, key r ∈ p.map key := by
      intro r hr
      have hmem : key r ∈ uniqueFirst (new_df.map key) :=
        mem_uniqueFirst.mpr (List.mem_map_of_mem key hr)
      by_contra hcon
      have hnot : key r ∉ (uniqueFirst (p.map key)) := fun hx =>
        hcon (mem_uniqueFirst.mp hx)
      have : key r ∈ (uniqueFirst (new_df.map key)).filter
          (fun k => decide (k ∉ uniqueFirst (p.map key))) :=
        List.mem_filter.mpr ⟨hmem, by simpa using hnot⟩
      rw [hempty] at this
      exact absurd this (List.not_mem_nil _)
    symm
    rw [List.filter_eq_nil_iff]
    intro r hr
    simp [hall r hr]
  · rw [if_neg (by simpa [List.isEmpty_iff] using hempty)]
    apply List.filter_congr
    intro r hr
    have hnew : key r ∈ new_df.map key := List.mem_map_of_mem key hr
    simp [List.mem_filter, mem_uniqueFirst, hnew]

theorem merge_eq_append {α : Type} (A B : List α) :
    merge_processed_data (some A) B = A ++ B := by
  cases A with
  | nil => simp [merge_processed_data]
  | cons a as => simp [merge_processed_data]

theorem find_new_eq_nil_of_covered {α : Type} (key : α → String) (new_df q : List α)
    (h : ∀ r ∈ new_df, key r ∈ q.map key) :
    find_new_service_orders key new_df (some q) = [] := by
  cases q with
  | nil =>
    have hnil : new_df = [] := by
      cases new_df with
      | nil => rfl
      | cons r rs => exact absurd (h r (List.mem_cons_self r rs)) (by simp)
    simp [find_new_service_orders, hnil]
  | cons b bs =>
    rw [find_new_eq_filter key new_df (b :: bs) (by simp)]
    rw [List.filter_eq_nil_iff]
    intro r hr
    simp only [decide_eq_true_eq, not_and, not_not]
    exact fun _ => h r hr

/-- C5: `merge_processed_data` appends existing rows then incoming rows, so its
length is the sum of the lengths, its key set is the union of the key sets,
and when the existing table is absent or empty the result is exactly the
incoming table. -/
theorem merge_monotonic {α : Type} (key : α → String) (A B : List α) :
    merge_processed_data none B = B
    ∧ merge_processed_data (some []) B = B
    ∧ merge_processed_data (some A) B = A ++ B
    ∧ (merge_processed_data (some A) B).length = A.length + B.length
    ∧ ∀ k : String,
        (k ∈ (merge_processed_data (some A) B).map key ↔ k ∈ A.map key ∨ k ∈ B.map key) := by
  have hAB := merge_eq_append A B
  refine ⟨rfl, by simp [merge_processed_data], hAB, ?_, ?_⟩
  · rw [hAB]; simp
  · intro k; rw [hAB]; simp

/-- C6: `find_new_service_orders` returns the whole new table when the
processed table is absent or empty, and otherwise exactly the rows of the new
table whose key is in the set difference (new keys minus existing keys),
as an order-preserving sublist of the new table (no mutation). -/
theorem find_new_spec {α : Type} (key : α → String) (new_df p : List α) :
    find_new_service_orders key new_df none = new_df
    ∧ find_new_service_orders key new_df (some []) = new_df
    ∧ (p ≠ [] →
        find_new_service_orders key new_df (some p)
          = new_df.filter (fun r => decide (key r ∈ new_df.map key ∧ key r ∉ p.map key))
        ∧ (find_new_service_orders key new_df (some p)).Sublist new_df) := by
  refine ⟨rfl, by simp [find_new_service_orders], fun hp => ⟨find_new_eq_filter key new_df p hp, ?_⟩⟩
  rw [find_new_eq_filter key new_df p hp]
  exact List.filter_sublist new_df

/-- C6 witness: with processed keys A,B,C and new keys A,B,C,D,E the
differencer returns exactly the records keyed D and E. -/
theorem find_new_spec_witness :
    (["A","B","C"] : List String) ≠ []
    ∧ find_new_service_orders (fun s : String => s) ["A","B","C","D","E"] (some ["A","B","C"])
        = (["A","B","C","D","E"] : List String).filter
            (fun r => decide (r ∈ (["A","B","C","D","E"] : List String).map (fun s : String => s)
              ∧ r ∉ (["A","B","C"] : List String).map (fun s : String => s)))
    ∧ find_new_service_orders (fun s : String => s) ["A","B","C","D","E"] (some ["A","B","C"])
        = ["D","E"] := by
  have h := find_new_spec (fun s : String => s) ["A","B","C","D","E"] ["A","B","C"]
  exact ⟨by decide, (h.2.2 (by decide)).1, by decide⟩

/-- C4: after merging the first incremental run's newly found records into the
processed table, re-running the differencer with the same new table selects
zero records, so the second run issues no work. -/
theorem incremental_idempotent {α : Type} (key : α → String)
    (new_df : List α) (processed : Option (List α)) :
    find_new_service_orders key new_df
      (some (merge_processed_data processed (find_new_service_orders key new_df processed)))
      = [] := by
  match processed with
  | none =>
    apply find_new_eq_nil_of_covered
    intro r hr
    exact List.mem_map_of_mem key hr
  | some [] =>
    apply find_new_eq_nil_of_covered
    intro r hr
    simp only [find_new_service_orders, merge_processed_data, List.isEmpty_nil, if_true]
    exact List.mem_map_of_mem key hr
  | some (b :: bs) =>
    rw [merge_eq_append]
    apply find_new_eq_nil_of_covered
    intro r hr
    rw [List.map_append, List.mem_append]
    by_cases hk : key r ∈ (b :: bs).map key
    · exact Or.inl hk
    · refine Or.inr (List.mem_map_of_mem key ?_)
      rw [find_new_eq_filter key new_df (b :: bs) (by simp)]
      refine List.mem_filter.mpr ⟨hr, ?_⟩
      simp only [decide_eq_true_eq]
      exact ⟨List.mem_map_of_mem key hr, hk⟩

/-! ## Proofs about the retry loop -/

theorem processAttempts_eq (oracle : Int → Option ClassificationResult) (m a : Int) :
    processAttempts oracle m a =
      if a < m then
        match oracle a with
        | some result => some result
        | none =>
          if a + 1 = m then some degradedResult
          else processAttempts oracle m (a + 1)
      else none := by
  rw [processAttempts]
  by_cases h : a < m
  · simp [h]
  · simp [h]

/-- C1: with the default `max_attempts = 3` the per-record retry loop always
returns a result: the first successful attempt's parsed result, or the
degraded default (zero problems, confidence low) after the final failed
attempt; the result is never absent and no exception escapes. -/
theorem classification_total (oracle : Int → Option ClassificationResult) (idx : Nat) :
    ∃ c, (process_single_call oracle idx 3).2 = some c
    ∧ ((∃ k : Int, 0 ≤ k ∧ k < 3 ∧ oracle k = some c
          ∧ ∀ j : Int, 0 ≤ j → j < k → oracle j = none)
      ∨ (c = degradedResult ∧ ∀ j : Int, 0 ≤ j → j < 3 → oracle j = none)) := by
  show ∃ c, processAttempts oracle 3 0 = some c ∧ _
  rcases h0 : oracle 0 with _ | c0
  · rcases h1 : oracle 1 with _ | c1
    · rcases h2 : oracle 2 with _ | c2
      · refine ⟨degradedResult, ?_, Or.inr ⟨rfl, ?_⟩⟩
        · rw [processAttempts_eq]
          norm_num [h0]
          rw [processAttempts_eq]
          norm_num [h1]
          rw [processAttempts_eq]
          norm_num [h2]
        · intro j hj0 hj3
          have : j = 0 ∨ j = 1 ∨ j = 2 := by omega
          rcases this with rfl | rfl | rfl
          · exact h0
          · exact h1
          · exact h2
      · refine ⟨c2, ?_, Or.inl ⟨2, by norm_num, by norm_num, h2, ?_⟩⟩
        · rw [processAttempts_eq]
          norm_num [h0]
          rw [processAttempts_eq]
          norm_num [h1]
          rw [processAttempts_eq]
          norm_num [h2]
        · intro j hj0 hj2
          have : j = 0 ∨ j = 1 := by omega
          rcases this with rfl | rfl
          · exact h0
          · exact h1
    · refine ⟨c1, ?_, Or.inl ⟨1, by norm_num, by norm_num, h1, ?_⟩⟩
      · rw [processAttempts_eq]
        norm_num [h0]
        rw [processAttempts_eq]
        norm_num [h1]
      · intro j hj0 hj1
        have : j = 0 := by omega
        subst this
        exact h0
  · refine ⟨c0, ?_, Or.inl ⟨0, by norm_num, by norm_num, h0, ?_⟩⟩
    · rw [processAttempts_eq]
      norm_num [h0]
    · intro j hj0 hj1
      omega

/-! ## Proofs about the materializer -/

theorem find_entry_eq {κ ν : Type} [BEq κ] [LawfulBEq κ]
    (l : List (κ × ν)) (k : κ) (v : ν) (hmem : (k, v) ∈ l)
    (hnodup : (l.map Prod.fst).Nodup) :
    l.find? (fun e => e.1 == k) = some (k, v) := by
  induction l with
  | nil => cases hmem
  | cons e es ih =>
    have hnodup' : (e.1 :: es.map Prod.fst).Nodup := by simpa using hnodup
    have hnd1 : e.1 ∉ es.map Prod.fst := (List.nodup_cons.mp hnodup').1
    have hnd2 : (es.map Prod.fst).Nodup := (List.nodup_cons.mp hnodup').2
    rcases List.mem_cons.mp hmem with rfl | hmem'
    · simp [List.find?_cons]
    · have hkmem : k ∈ es.map Prod.fst := by
        have := List.mem_map_of_mem Prod.fst hmem'
        simpa using this
      have hne : e.1 ≠ k := fun he => hnd1 (he ▸ hkmem)
      rw [List.find?_cons]
      have hbeq : (e.1 == k) = false := by simp [hne]
      simp only [hbeq]
      exact ih hmem' hnd2

theorem lookupResult_eq_of_mem (results : List (Nat × Option ClassificationResult))
    (idx : Nat) (v : Option ClassificationResult)
    (hmem : (idx, v) ∈ results) (hnodup : (results.map Prod.fst).Nodup) :
    lookupResult results idx = some v := by
  unfold lookupResult
  rw [find_entry_eq results idx v hmem hnodup]
  rfl

theorem problemRows_fields (so : String) (idx : Nat) (ps : List Problem) :
    ∀ row ∈ problemRows so idx ps, row.SERVICE_ORDER = so ∧ row.Row_Index = idx := by
  intro row hrow
  rcases List.mem_append.mp hrow with h | h
  · rcases List.mem_map.mp h with ⟨np, _, rfl⟩
    exact ⟨rfl, rfl⟩
  · by_cases he : ps.isEmpty
    · rw [if_pos he] at h
      rcases List.mem_singleton.mp h with rfl
      exact ⟨rfl, rfl⟩
    · rw [if_neg he] at h
      cases h

theorem normalized_rowIndex_mem (df : List Record) :
    ∀ (es : List (Nat × Option ClassificationResult)) (row : NormalizedRow),
      row ∈ add_results_normalized df es → row.Row_Index ∈ es.map Prod.fst := by
  intro es
  induction es with
  | nil => intro row h; cases h
  | cons e es ih =>
    obtain ⟨i, res⟩ := e
    rcases res with _ | r
    · intro row h
      exact List.mem_cons_of_mem _ (ih row h)
    · intro row h
      rcases List.mem_append.mp h with h | h
      · have := (problemRows_fields (serviceOrderAt df i) i r.problems row h).2
        simp [this]
      · exact List.mem_cons_of_mem _ (ih row h)

/-- The normalized rows carrying a given `Row_Index` are exactly the rows
contributed by that record's entry of the results dict. -/
theorem normalized_filter_eq (df : List Record)
    (results : List (Nat × Option ClassificationResult)) (idx : Nat)
    (hnodup : (results.map Prod.fst).Nodup) :
    (add_results_normalized df results).filter (fun row => row.Row_Index == idx)
      = (match lookupResult results idx with
         | some (some r) => problemRows (serviceOrderAt df idx) idx r.problems
         | _ => []) := by
  induction results with
  | nil => rfl
  | cons e es ih =>
    obtain ⟨i, res⟩ := e
    have hnodup' : (i :: es.map Prod.fst).Nodup := by simpa using hnodup
    have hnd1 : i ∉ es.map Prod.fst := (List.nodup_cons.mp hnodup').1
    have hnd2 : (es.map Prod.fst).Nodup := (List.nodup_cons.mp hnodup').2
    by_cases hi : i = idx
    · subst hi
      have hrest : (add_results_normalized df es).filter (fun row => row.Row_Index == i) = [] := by
        rw [List.filter_eq_nil_iff]
        intro row hrow
        have hmem := normalized_rowIndex_mem df es row hrow
        have hne : row.Row_Index ≠ i := fun he => hnd1 (he ▸ hmem)
        simp [hne]
      have hlook : lookupResult ((i, res) :: es) i = some res := by
        unfold lookupResult
        rw [List.find?_cons]
        simp
      rw [hlook]
      rcases res with _ | r
      · exact hrest
      · show (problemRows (serviceOrderAt df i) i r.problems
            ++ add_results_normalized df es).filter (fun row => row.Row_Index == i)
          = problemRows (serviceOrderAt df i) i r.problems
        rw [List.filter_append, hrest, List.append_nil]
        apply List.filter_eq_self.mpr
        intro row hrow
        have hr := (problemRows_fields (serviceOrderAt df i) i r.problems row hrow).2
        simp [hr]
    · have hlook : lookupResult ((i, res) :: es) idx = lookupResult es idx := by
        unfold lookupResult
        rw [List.find?_cons]
        have hbeq : ((i, res).1 == idx) = false := by simp [hi]
        rw [hbeq]
      rw [hlook]
      rcases res with _ | r
      · exact ih hnd2
      · show (problemRows (serviceOrderAt df i) i r.problems
            ++ add_results_normalized df es).filter (fun row => row.Row_Index == idx) = _
        rw [List.filter_append]
        have hblock : (problemRows (serviceOrderAt df i) i r.problems).filter
            (fun row => row.Row_Index == idx) = [] := by
          rw [List.filter_eq_nil_iff]
          intro row hrow
          have hr := (problemRows_fields (serviceOrderAt df i) i r.problems row hrow).2
          simp [hr, hi]
        rw [hblock, List.nil_append]
        exact ih hnd2

theorem problemRows_length (so : String) (idx : Nat) (ps : List Problem) :
    (problemRows so idx ps).length = max 1 ps.length := by
  unfold problemRows
  rw [List.length_append, List.length_map, List.enum_length]
  rcases ps with _ | ⟨p, ps'⟩
  · simp
  · simp

theorem problemRows_getElem (so : String) (idx : Nat) (ps : List Problem)
    (n : Nat) (p : Problem) (h : ps[n]? = some p) :
    (problemRows so idx ps)[n]?
      = some ⟨so, idx, n + 1, p.part, p.failure_mode, p.fix, p.confidence,
          p.supporting_text⟩ := by
  have hn : n < ps.length := by
    by_contra hcon
    rw [List.getElem?_eq_none (by omega)] at h
    cases h
  unfold problemRows
  rw [List.getElem?_append_left (by simpa [List.enum_length] using hn)]
  rw [List.getElem?_map, List.getElem?_enum, h]
  rfl

theorem add_results_enriched_getElem (df : List Record)
    (results : List (Nat × Option ClassificationResult)) (idx : Nat) (rec : Record)
    (hrec : df[idx]? = some rec) :
    (add_results_enriched df results)[idx]?
      = some (rec, match lookupResult results idx with
                   | some (some r) => applyResult r
                   | _ => initCols) := by
  unfold add_results_enriched
  rw [List.getElem?_map, List.getElem?_enum, hrec]
  rfl

/-- C2: for every record whose result is present (not `None`), the normalized
table holds exactly `max 1 (number of problems)` rows for that record, keyed
by its `SERVICE_ORDER` with 1-based `Problem_Number` in problem order, and a
single all-Unknown low-confidence placeholder when the problems list is
empty. -/
theorem normalized_row_correspondence (df : List Record)
    (results : List (Nat × Option ClassificationResult)) (idx : Nat)
    (r : ClassificationResult)
    (hmem : (idx, some r) ∈ results)
    (hnodup : (results.map Prod.fst).Nodup) :
    (add_results_normalized df results).filter (fun row => row.Row_Index == idx)
      = problemRows (serviceOrderAt df idx) idx r.problems
    ∧ ((add_results_normalized df results).filter (fun row => row.Row_Index == idx)).length
      = max 1 r.problems.length
    ∧ (∀ row ∈ problemRows (serviceOrderAt df idx) idx r.problems,
        row.SERVICE_ORDER = serviceOrderAt df idx ∧ row.Row_Index = idx)
    ∧ (∀ (n : Nat) (p : Problem), r.problems[n]? = some p →
        (problemRows (serviceOrderAt df idx) idx r.problems)[n]?
          = some ⟨serviceOrderAt df idx, idx, n + 1, p.part, p.failure_mode, p.fix,
              p.confidence, p.supporting_text⟩)
    ∧ (r.problems = [] →
        problemRows (serviceOrderAt df idx) idx r.problems
          = [⟨serviceOrderAt df idx, idx, 1, "Unknown", "Unknown", "Unknown", "low", ""⟩]) := by
  have hlook := lookupResult_eq_of_mem results idx (some r) hmem hnodup
  have hfilter : (add_results_normalized df results).filter (fun row => row.Row_Index == idx)
      = problemRows (serviceOrderAt df idx) idx r.problems := by
    rw [normalized_filter_eq df results idx hnodup, hlook]
  refine ⟨hfilter, ?_, problemRows_fields _ _ _,
    fun n p hp => problemRows_getElem _ _ _ n p hp, ?_⟩
  · rw [hfilter, problemRows_length]
  · intro he
    rw [he]
    rfl

/-- C2 witness: the SO-100 record with the Pump/Valve result contributes
exactly its two problem rows. -/
theorem normalized_row_correspondence_witness :
    ((0, some (⟨⟨2, "high"⟩,
        [⟨"Pump", "Leak", "Seal replaced", "high", ""⟩,
         ⟨"Valve", "Stuck", "Lubricated", "medium", ""⟩]⟩ : ClassificationResult))
      ∈ [(0, some (⟨⟨2, "high"⟩,
        [⟨"Pump", "Leak", "Seal replaced", "high", ""⟩,
         ⟨"Valve", "Stuck", "Lubricated", "medium", ""⟩]⟩ : ClassificationResult))])
    ∧ (add_results_normalized [⟨"SO-100", "", "", "", ""⟩]
        [(0, some ⟨⟨2, "high"⟩,
          [⟨"Pump", "Leak", "Seal replaced", "high", ""⟩,
           ⟨"Valve", "Stuck", "Lubricated", "medium", ""⟩]⟩)]).filter
        (fun row => row.Row_Index == 0)
      = problemRows "SO-100" 0
          [⟨"Pump", "Leak", "Seal replaced", "high", ""⟩,
           ⟨"Valve", "Stuck", "Lubricated", "medium", ""⟩] := by
  have h := (normalized_row_correspondence [⟨"SO-100", "", "", "", ""⟩]
    [(0, some ⟨⟨2, "high"⟩,
      [⟨"Pump", "Leak", "Seal replaced", "high", ""⟩,
       ⟨"Valve", "Stuck", "Lubricated", "medium", ""⟩]⟩)] 0
    ⟨⟨2, "high"⟩,
      [⟨"Pump", "Leak", "Seal replaced", "high", ""⟩,
       ⟨"Valve", "Stuck", "Lubricated", "medium", ""⟩]⟩
    (by decide) (by decide)).1
  exact ⟨by decide, h⟩

theorem processAttempts_ne_none (oracle : Int → Option ClassificationResult) (n : Nat) :
    ∀ m a : Int, (m - a).toNat = n → a < m → processAttempts oracle m a ≠ none := by
  induction n using Nat.strong_induction_on with
  | _ n ih =>
    intro m a hn h
    rw [processAttempts_eq, if_pos h]
    rcases ho : oracle a with _ | c
    · by_cases he : a + 1 = m
      · simp [he]
      · rw [if_neg he]
        exact ih ((m - (a + 1)).toNat) (by omega) m (a + 1) rfl (by omega)
    · simp

/-- C10: with a non-positive `max_attempts` the retry loop body never runs and
`process_single_call` returns `(row_index, None)` rather than the degraded
default; the materializer skips such a record, leaving the initialized
defaults (`Total_Problems = 0`, `Overall_Confidence` empty) and contributing
zero normalized rows, while any `max_attempts ≥ 1` always yields a result. -/
theorem zero_attempts_skip (oracle : Int → Option ClassificationResult) (idx : Nat)
    (m : Int) (hm : m ≤ 0)
    (df : List Record) (results : List (Nat × Option ClassificationResult))
    (hres : lookupResult results idx = some none)
    (hnodup : (results.map Prod.fst).Nodup) :
    process_single_call oracle idx m = (idx, none)
    ∧ (∀ rec : Record, df[idx]? = some rec →
        (add_results_enriched df results)[idx]? = some (rec, initCols))
    ∧ initCols.Total_Problems = 0
    ∧ initCols.Overall_Confidence = ""
    ∧ (add_results_normalized df results).filter (fun row => row.Row_Index == idx) = []
    ∧ (∀ m2 : Int, 1 ≤ m2 → (process_single_call oracle idx m2).2 ≠ none) := by
  refine ⟨?_, ?_, rfl, rfl, ?_, ?_⟩
  · unfold process_single_call
    rw [processAttempts_eq, if_neg (by omega)]
  · intro rec hrec
    have h := add_results_enriched_getElem df results idx rec hrec
    rw [hres] at h
    exact h
  · rw [normalized_filter_eq df results idx hnodup, hres]
  · intro m2 hm2
    exact processAttempts_ne_none oracle ((m2 - 0).toNat) m2 0 rfl (by omega)

/-- C10 witness: `max_attempts = 0` skips the loop while `max_attempts = 3`
always produces a result. -/
theorem zero_attempts_skip_witness :
    process_single_call (fun _ => none) 0 0 = (0, none)
    ∧ (add_results_normalized [⟨"SO-1", "", "", "", ""⟩] [(0, none)]).filter
        (fun row => row.Row_Index == 0) = []
    ∧ (process_single_call (fun _ => none) 0 3).2 ≠ none := by
  have h := zero_attempts_skip (fun _ => none) 0 0 (by norm_num)
    [⟨"SO-1", "", "", "", ""⟩] [(0, none)] (by decide) (by decide)
  exact ⟨h.1, h.2.2.2.2.1, h.2.2.2.2.2 3 (by norm_num)⟩

/-! ## Proofs about the translator -/

theorem chunks_nil {α : Type} (bs : Nat) : chunks bs ([] : List α) = [] := by
  rw [chunks]

theorem chunks_cons {α : Type} (bs : Nat) (x : α) (xs : List α) :
    chunks bs (x :: xs)
      = if bs = 0 then [] else (x :: xs).take bs :: chunks bs ((x :: xs).drop bs) := by
  rw [chunks]
  by_cases h : bs = 0 <;> simp [h]

theorem zip_self_map {α β : Type} (g : α → β) :
    ∀ l : List α, l.zip (l.map g) = l.map (fun a => (a, g a)) := by
  intro l
  induction l with
  | nil => rfl
  | cons a as ih => simp [ih]

theorem firstPhase_eq (batch : List (Option String)) :
    ∀ (m : List (Option String × String)) (vs : List (Option String)),
      batch.foldl (fun acc text =>
          if isBlankCell text then (acc.1 ++ [(text, "")], acc.2) else (acc.1, acc.2 ++ [text]))
        (m, vs)
      = (m ++ (batch.filter (fun t => isBlankCell t)).map (fun t => (t, "")),
         vs ++ batch.filter (fun t => !isBlankCell t)) := by
  induction batch with
  | nil => intro m vs; simp
  | cons t ts ih =>
    intro m vs
    by_cases hb : isBlankCell t
    · simp only [List.foldl_cons, hb, if_true, List.filter_cons]
      rw [ih]
      simp [hb]
    · simp only [List.foldl_cons, hb, if_false, List.filter_cons]
      rw [ih]
      simp [hb]

theorem processBatch_fst (svc : String → Option String)
    (m : List (Option String × String)) (batch : List (Option String)) :
    (processBatch svc m batch).1
      = m ++ ((batch.filter (fun t => isBlankCell t)).map (fun t => (t, translatedValue svc t))
          ++ (batch.filter (fun t => !isBlankCell t)).map (fun t => (t, translatedValue svc t))) := by
  unfold processBatch
  rw [firstPhase_eq]
  simp only [zip_self_map, List.map_map, List.nil_append, List.append_assoc]
  congr 1
  congr 1
  · apply List.map_congr_left
    intro t ht
    have hb := (List.mem_filter.mp ht).2
    simp [translatedValue, hb]
  · apply List.map_congr_left
    intro t ht
    have hb := (List.mem_filter.mp ht).2
    simp only [Bool.not_eq_true'] at hb
    simp [Function.comp, translatedValue, hb]

theorem processBatch_snd (svc : String → Option String)
    (m : List (Option String × String)) (batch : List (Option String)) :
    (processBatch svc m batch).2 = (batch.filter (fun t => !isBlankCell t)).length := by
  unfold processBatch
  rw [firstPhase_eq]
  simp

theorem translate_unique_values_eq_fold (svc : String → Option String) (bs : Nat)
    (uv : List (Option String)) :
    translate_unique_values svc bs uv = translateFold svc ([], 0) (chunks bs uv) := rfl

theorem translateFold_inv (svc : String → Option String) :
    ∀ (batches : List (List (Option String))) (m : List (Option String × String)) (n : Nat),
      ∃ tail : List (Option String × String),
        (translateFold svc (m, n) batches).1 = m ++ tail
        ∧ (∀ e ∈ tail, e.2 = translatedValue svc e.1 ∧ ∃ b ∈ batches, e.1 ∈ b)
        ∧ (∀ b ∈ batches, ∀ t ∈ b, ∃ v, (t, v) ∈ tail)
        ∧ (translateFold svc (m, n) batches).2
            = n + (batches.map (fun b => (b.filter (fun t => !isBlankCell t)).length)).sum := by
  intro batches
  induction batches with
  | nil =>
    intro m n
    exact ⟨[], by simp [translateFold], by simp, by simp, by simp [translateFold]⟩
  | cons b bs ih =>
    intro m n
    have hstep : translateFold svc (m, n) (b :: bs)
        = translateFold svc ((processBatch svc m b).1, n + (processBatch svc m b).2) bs := rfl
    obtain ⟨tail, h1, h2, h3, h4⟩ := ih (processBatch svc m b).1 (n + (processBatch svc m b).2)
    refine ⟨((b.filter (fun t => isBlankCell t)).map (fun t => (t, translatedValue svc t))
        ++ (b.filter (fun t => !isBlankCell t)).map (fun t => (t, translatedValue svc t)))
        ++ tail, ?_, ?_, ?_, ?_⟩
    · rw [hstep, h1, processBatch_fst]
      simp [List.append_assoc]
    · intro e he
      rcases List.mem_append.mp he with he | he
      · rcases List.mem_append.mp he with he | he
        · rcases List.mem_map.mp he with ⟨t, ht, rfl⟩
          exact ⟨rfl, b, List.mem_cons_self _ _, List.mem_of_mem_filter ht⟩
        · rcases List.mem_map.mp he with ⟨t, ht, rfl⟩
          exact ⟨rfl, b, List.mem_cons_self _ _, List.mem_of_mem_filter ht⟩
      · obtain ⟨hv, b', hb', ht⟩ := h2 e he
        exact ⟨hv, b', List.mem_cons_of_mem _ hb', ht⟩
    · intro b' hb' t ht
      rcases List.mem_cons.mp hb' with rfl | hb'
      · by_cases hblank : isBlankCell t
        · refine ⟨translatedValue svc t, List.mem_append.mpr (Or.inl ?_)⟩
          refine List.mem_append.mpr (Or.inl ?_)
          exact List.mem_map_of_mem _ (List.mem_filter.mpr ⟨ht, by simpa using hblank⟩)
        · refine ⟨translatedValue svc t, List.mem_append.mpr (Or.inl ?_)⟩
          refine List.mem_append.mpr (Or.inr ?_)
          exact List.mem_map_of_mem _ (List.mem_filter.mpr ⟨ht, by simpa using hblank⟩)
      · obtain ⟨v, hv⟩ := h3 b' hb' t ht
        exact ⟨v, List.mem_append.mpr (Or.inr hv)⟩
    · rw [hstep, h4, processBatch_snd]
      simp [Nat.add_assoc]

theorem mem_chunks {α : Type} (bs : Nat) (hbs : 0 < bs) (n : Nat) :
    ∀ (l : List α), l.length = n → ∀ x ∈ l, ∃ b ∈ chunks bs l, x ∈ b := by
  induction n using Nat.strong_induction_on with
  | _ n ih =>
    intro l hn x hx
    rcases l with _ | ⟨y, ys⟩
    · cases hx
    · rw [chunks_cons, if_neg (by omega)]
      by_cases hxt : x ∈ (y :: ys).take bs
      · exact ⟨(y :: ys).take bs, List.mem_cons_self _ _, hxt⟩
      · have hxd : x ∈ (y :: ys).drop bs := by
          have hsplit := List.take_append_drop bs (y :: ys)
          have hx' := hx
          rw [← hsplit] at hx'
          rcases List.mem_append.mp hx' with h | h
          · exact absurd h hxt
          · exact h
        obtain ⟨b, hb, hxb⟩ := ih ((y :: ys).drop bs).length
          (by rw [← hn]; simp [List.length_drop]; omega) _ rfl x hxd
        exact ⟨b, List.mem_cons_of_mem _ hb, hxb⟩

theorem chunks_flatten {α : Type} (bs : Nat) (hbs : 0 < bs) (n : Nat) :
    ∀ (l : List α), l.length = n → (chunks bs l).flatten = l := by
  induction n using Nat.strong_induction_on with
  | _ n ih =>
    intro l hn
    rcases l with _ | ⟨y, ys⟩
    · rw [chunks_nil]; rfl
    · rw [chunks_cons, if_neg (by omega), List.flatten_cons]
      rw [ih ((y :: ys).drop bs).length (by rw [← hn]; simp [List.length_drop]; omega) _ rfl]
      exact List.take_append_drop bs (y :: ys)

theorem sum_filter_lengths {α : Type} (p : α → Bool) :
    ∀ batches : List (List α),
      (batches.map (fun b => (b.filter p).length)).sum = (batches.flatten.filter p).length := by
  intro batches
  induction batches with
  | nil => rfl
  | cons b bs ih => simp [List.filter_append, ih]

/-- Number of translation calls issued over the unique values: exactly the
non-blank ones. -/
theorem translation_calls_eq (svc : String → Option String) (bs : Nat) (hbs : 0 < bs)
    (uv : List (Option String)) :
    (translate_unique_values svc bs uv).2 = (uv.filter (fun t => !isBlankCell t)).length := by
  obtain ⟨tail, _, _, _, h4⟩ := translateFold_inv svc (chunks bs uv) [] 0
  have hs : (translate_unique_values svc bs uv).2
      = (translateFold svc ([], 0) (chunks bs uv)).2 := rfl
  rw [hs, h4, Nat.zero_add, sum_filter_lengths, chunks_flatten bs hbs uv.length uv rfl]

/-- Lookup in the finished translation map: every unique value maps to its
per-value outcome. -/
theorem lookupMap_translate_unique (svc : String → Option String) (bs : Nat) (hbs : 0 < bs)
    (uv : List (Option String)) (k : Option String) (hk : k ∈ uv) :
    lookupMap (translate_unique_values svc bs uv).1 k = some (translatedValue svc k) := by
  obtain ⟨b, hb, hkb⟩ := mem_chunks bs hbs uv.length uv rfl k hk
  obtain ⟨tail, h1, h2, h3, _⟩ := translateFold_inv svc (chunks bs uv) [] 0
  have hmap : (translate_unique_values svc bs uv).1 = tail := by
    have hs : (translate_unique_values svc bs uv).1
        = (translateFold svc ([], 0) (chunks bs uv)).1 := rfl
    rw [hs, h1, List.nil_append]
  obtain ⟨v, hv⟩ := h3 b hb k hkb
  unfold lookupMap
  rw [hmap]
  rcases hfind : tail.find? (fun e => e.1 == k) with _ | e
  · exfalso
    exact absurd (by simp : (((k, v) : Option String × String).1 == k) = true)
      (List.find?_eq_none.mp hfind (k, v) hv)
  · have he : e.1 = k := by simpa using List.find?_some hfind
    have hval := (h2 e (List.mem_of_find?_eq_some hfind)).1
    rw [hfind]
    show some e.2 = some (translatedValue svc k)
    rw [hval, he]

/-- Calls for a column equal the number of distinct non-blank non-null
values of the column. -/
theorem calls_eq_distinct (svc : String → Option String) (bs : Nat) (hbs : 0 < bs)
    (col : List (Option String)) :
    (translate_unique_values svc bs ((uniqueFirst (col.filterMap id)).map some)).2
      = ((uniqueFirst (col.filterMap id)).filter (fun s => !(pyStrip s == ""))).length := by
  rw [translation_calls_eq svc bs hbs, List.filter_map, List.length_map]
  have hfc : ((uniqueFirst (col.filterMap id)).filter ((fun t => !isBlankCell t) ∘ some))
      = (uniqueFirst (col.filterMap id)).filter (fun s => !(pyStrip s == "")) :=
    List.filter_congr (fun x _ => rfl)
  rw [hfc]

/-- C3: for every column, the number of external translation calls issued
while building the translation map is exactly, hence at most, the number of
distinct non-blank, non-null values in that column; duplicate cell values
never cause additional calls. -/
theorem dedup_translation_calls (svc : String → Option String) (bs : Nat) (hbs : 0 < bs)
    (col : List (Option String)) :
    (translate_unique_values svc bs ((uniqueFirst (col.filterMap id)).map some)).2
      = ((uniqueFirst (col.filterMap id)).filter (fun s => !(pyStrip s == ""))).length
    ∧ (translate_unique_values svc bs ((uniqueFirst (col.filterMap id)).map some)).2
      ≤ ((uniqueFirst (col.filterMap id)).filter (fun s => !(pyStrip s == ""))).length := by
  have heq := calls_eq_distinct svc bs hbs col
  exact ⟨heq, le_of_eq heq⟩

/-- C3 witness: a column with a duplicated value, a blank and a null issues at
most one call. -/
theorem dedup_translation_calls_witness :
    0 < 2
    ∧ (translate_unique_values (fun t => some t) 2
        ((uniqueFirst (([some "a", some "a", some " ", none] : List (Option String)).filterMap
          id)).map some)).2
      ≤ ((uniqueFirst (([some "a", some "a", some " ", none] : List (Option String)).filterMap
          id)).filter (fun s => !(pyStrip s == ""))).length := by
  exact ⟨by norm_num,
    (dedup_translation_calls (fun t => some t) 2 (by norm_num) [some "a", some "a", some " ", none]).2⟩

/-- C7: a unique value whose translation request fails keeps its original text
in the translation map; the failure neither raises nor prevents the other
values from being translated. -/
theorem translation_failure_fallback (svc : String → Option String) (bs : Nat) (hbs : 0 < bs)
    (uv : List (Option String)) (v : String)
    (hv : some v ∈ uv) (hnb : ¬(pyStrip v = "")) (hfail : svc v = none) :
    lookupMap (translate_unique_values svc bs uv).1 (some v) = some v
    ∧ (∀ (w t : String), some w ∈ uv → ¬(pyStrip w = "") → svc w = some t →
        lookupMap (translate_unique_values svc bs uv).1 (some w) = some t) := by
  constructor
  · rw [lookupMap_translate_unique svc bs hbs uv (some v) hv]
    have hval : translatedValue svc (some v) = v := by
      simp [translatedValue, isBlankCell, hnb, strOfCell, hfail]
    rw [hval]
  · intro w t hw hwnb hsvc
    rw [lookupMap_translate_unique svc bs hbs uv (some w) hw]
    have hval : translatedValue svc (some w) = t := by
      simp [translatedValue, isBlankCell, hwnb, strOfCell, hsvc]
    rw [hval]

/-- C7 witness: with a service failing only on "bonjour", that value falls
back to itself while "salut" still gets its translation. -/
theorem translation_failure_fallback_witness :
    (0 < 1 ∧ some "bonjour" ∈ [some "bonjour", some "salut"]
      ∧ ¬(pyStrip "bonjour" = ""))
    ∧ lookupMap (translate_unique_values
        (fun t => if t = "salut" then some "hi" else none) 1
        [some "bonjour", some "salut"]).1 (some "bonjour") = some "bonjour"
    ∧ lookupMap (translate_unique_values
        (fun t => if t = "salut" then some "hi" else none) 1
        [some "bonjour", some "salut"]).1 (some "salut") = some "hi" := by
  have h := translation_failure_fallback (fun t => if t = "salut" then some "hi" else none) 1
    (by norm_num) [some "bonjour", some "salut"] "bonjour" (by simp) (by decide) (by decide)
  exact ⟨⟨by norm_num, by simp, by decide⟩, h.1, h.2 "salut" "hi" (by simp) (by decide) (by decide)⟩

theorem translate_column_none (svc : String → Option String) (bs : Nat)
    (col : List (Option String)) (hz : (uniqueFirst (col.filterMap id)).length = 0) :
    translate_column svc bs col = none := by
  simp only [translate_column]
  rw [if_pos hz]

theorem translate_column_eq (svc : String → Option String) (bs : Nat)
    (col : List (Option String)) (hne : (uniqueFirst (col.filterMap id)).length ≠ 0) :
    translate_column svc bs col
      = some (col.map (fun c =>
          match (match c with
                 | none => none
                 | some v => lookupMap
                     (translate_unique_values svc bs
                       ((uniqueFirst (col.filterMap id)).map some)).1 (some v)) with
          | some t => some t
          | none => c)) := by
  simp only [translate_column]
  rw [if_neg hne]

/-- C8 (amended): blank (non-null, empty or whitespace-only) cells of a
translated column map to the empty string in `<col>_EN`, and no translation
call is issued for blank or missing values (calls equal the distinct
non-blank non-null count); missing/null cells, however, remain null in
`<col>_EN` rather than becoming the empty string. -/
theorem blank_and_missing_cells (svc : String → Option String) (bs : Nat) (hbs : 0 < bs)
    (col : List (Option String)) (out : List (Option String))
    (hout : translate_column svc bs col = some out) :
    (∀ (i : Nat) (v : String), col[i]? = some (some v) → pyStrip v = ""
      → out[i]? = some (some ""))
    ∧ (∀ i : Nat, col[i]? = some none → out[i]? = some none)
    ∧ (translate_unique_values svc bs ((uniqueFirst (col.filterMap id)).map some)).2
        = ((uniqueFirst (col.filterMap id)).filter (fun s => !(pyStrip s == ""))).length := by
  have hcalls := calls_eq_distinct svc bs hbs col
  by_cases hz : (uniqueFirst (col.filterMap id)).length = 0
  · rw [translate_column_none svc bs col hz] at hout
    cases hout
  · rw [translate_column_eq svc bs col hz] at hout
    have hmap := Option.some.inj hout
    refine ⟨?_, ?_, hcalls⟩
    · intro i v hci hblank
      rw [← hmap, List.getElem?_map, hci]
      have hvmem : some v ∈ col := List.getElem?_mem hci
      have hvcol : v ∈ col.filterMap id := List.mem_filterMap.mpr ⟨some v, hvmem, rfl⟩
      have hvu : v ∈ uniqueFirst (col.filterMap id) := mem_uniqueFirst.mpr hvcol
      have hvuv : some v ∈ (uniqueFirst (col.filterMap id)).map some :=
        List.mem_map_of_mem some hvu
      have hlook := lookupMap_translate_unique svc bs hbs _ (some v) hvuv
      have htv : translatedValue svc (some v) = "" := by
        simp [translatedValue, isBlankCell, hblank]
      simp [hlook, htv]
    · intro i hci
      rw [← hmap, List.getElem?_map, hci]
      rfl

/-- C8 counterexample: a null cell stays null in the `_EN` column (the claim
would require the empty string there). -/
theorem missing_cell_counterexample :
    translate_column (fun t => some t) 1 [some "x", none] = some [some "x", none]
    ∧ (some (none : Option String)) ≠ some (some ("" : String)) := by
  have hchunks : chunks 1 [some ("x" : String)] = [[some "x"]] := by
    rw [chunks_cons]
    simp [chunks_nil]
  have huniq : (uniqueFirst (([some "x", none] : List (Option String)).filterMap id)).map some
      = [some "x"] := by decide
  constructor
  · rw [translate_column_eq (fun t => some t) 1 [some "x", none] (by decide)]
    simp only [huniq, translate_unique_values_eq_fold, hchunks]
    decide
  · decide

/-- C8 witness (amended claim): a whitespace-only cell becomes the empty
string, a null cell stays null. -/
theorem blank_and_missing_cells_witness :
    0 < 1
    ∧ translate_column (fun t => some t) 1 [some " ", none] = some [some "", none]
    ∧ ([some "", none] : List (Option String))[0]? = some (some "")
    ∧ ([some "", none] : List (Option String))[1]? = some none := by
  have hchunks : chunks 1 [some (" " : String)] = [[some " "]] := by
    rw [chunks_cons]
    simp [chunks_nil]
  have huniq : (uniqueFirst (([some " ", none] : List (Option String)).filterMap id)).map some
      = [some " "] := by decide
  have heval : translate_column (fun t => some t) 1 [some " ", none] = some [some "", none] := by
    rw [translate_column_eq (fun t => some t) 1 [some " ", none] (by decide)]
    simp only [huniq, translate_unique_values_eq_fold, hchunks]
    decide
  have h := blank_and_missing_cells (fun t => some t) 1 (by norm_num) [some " ", none]
    [some "", none] heval
  exact ⟨by norm_num, heval, h.1 0 " " (by decide) (by decide), h.2.1 1 (by decide)⟩

/-! ## Proofs about the JSON serialization -/

theorem hexVal_hexDigitChar : ∀ n < 16, hexVal (hexDigitChar n) = some n := by decide

theorem parseJStringBody_quote (rest : List Char) :
    parseJStringBody ('"' :: rest) = some ([], rest) := by
  rw [parseJStringBody.eq_def]
  simp

theorem parseJStringBody_escaped (e c2 : Char) (he : e ≠ 'u') (hu : unescapeChar e = some c2)
    (r : List Char) :
    parseJStringBody ('\\' :: e :: r)
      = (parseJStringBody r).map (fun x => (c2 :: x.1, x.2)) := by
  rcases hp : parseJStringBody r with _ | ⟨cs, r2⟩ <;>
    · rw [parseJStringBody.eq_def]
      simp [he, hu, hp]

theorem parseJStringBody_unicode (h1 h2 h3 h4 : Char) (a b c2 d : Nat)
    (ha : hexVal h1 = some a) (hb : hexVal h2 = some b)
    (hc : hexVal h3 = some c2) (hd : hexVal h4 = some d) (r2 : List Char) :
    parseJStringBody ('\\' :: 'u' :: h1 :: h2 :: h3 :: h4 :: r2)
      = (parseJStringBody r2).map
          (fun x => (Char.ofNat (((a * 16 + b) * 16 + c2) * 16 + d) :: x.1, x.2)) := by
  rcases hp : parseJStringBody r2 with _ | ⟨cs, r3⟩ <;>
    · rw [parseJStringBody.eq_def]
      simp [ha, hb, hc, hd, hp]

theorem parseJStringBody_plain (c : Char) (hq : c ≠ '"') (hb : c ≠ '\\') (r : List Char) :
    parseJStringBody (c :: r)
      = (parseJStringBody r).map (fun x => (c :: x.1, x.2)) := by
  rcases hp : parseJStringBody r with _ | ⟨cs, r2⟩ <;>
    · rw [parseJStringBody.eq_def]
      simp [hq, hb, hp]

/-- Parsing inverts the string escaping of `json.dumps`. -/
theorem parseJStringBody_escape : ∀ (s rest : List Char),
    parseJStringBody (escapeChars s ++ '"' :: rest) = some (s, rest) := by
  intro s
  induction s with
  | nil =>
    intro rest
    exact parseJStringBody_quote rest
  | cons c cs ih =>
    intro rest
    show parseJStringBody ((escapeChar c ++ escapeChars cs) ++ '"' :: rest) = some (c :: cs, rest)
    rw [List.append_assoc]
    by_cases h1 : c = '"'
    · subst h1
      rw [show escapeChar '"' = ['\\', '"'] from rfl, List.cons_append, List.cons_append,
        List.nil_append, parseJStringBody_escaped '"' '"' (by decide) (by decide), ih rest]
      rfl
    · by_cases h2 : c = '\\'
      · subst h2
        rw [show escapeChar '\\' = ['\\', '\\'] from rfl, List.cons_append, List.cons_append,
          List.nil_append, parseJStringBody_escaped '\\' '\\' (by decide) (by decide), ih rest]
        rfl
      · by_cases h3 : c = '\n'
        · subst h3
          rw [show escapeChar '\n' = ['\\', 'n'] from rfl, List.cons_append, List.cons_append,
            List.nil_append, parseJStringBody_escaped 'n' '\n' (by decide) (by decide), ih rest]
          rfl
        · by_cases h4 : c = '\t'
          · subst h4
            rw [show escapeChar '\t' = ['\\', 't'] from rfl, List.cons_append, List.cons_append,
              List.nil_append, parseJStringBody_escaped 't' '\t' (by decide) (by decide), ih rest]
            rfl
          · by_cases h5 : c = '\r'
            · subst h5
              rw [show escapeChar '\r' = ['\\', 'r'] from rfl, List.cons_append, List.cons_append,
                List.nil_append, parseJStringBody_escaped 'r' '\r' (by decide) (by decide), ih rest]
              rfl
            · by_cases h6 : c = '\x08'
              · subst h6
                rw [show escapeChar '\x08' = ['\\', 'b'] from rfl, List.cons_append,
                  List.cons_append, List.nil_append,
                  parseJStringBody_escaped 'b' '\x08' (by decide) (by decide), ih rest]
                rfl
              · by_cases h7 : c = '\x0c'
                · subst h7
                  rw [show escapeChar '\x0c' = ['\\', 'f'] from rfl, List.cons_append,
                    List.cons_append, List.nil_append,
                    parseJStringBody_escaped 'f' '\x0c' (by decide) (by decide), ih rest]
                  rfl
                · by_cases h8 : c.toNat < 32
                  · have hesc : escapeChar c
                        = ['\\', 'u', '0', '0', hexDigitChar (c.toNat / 16),
                            hexDigitChar (c.toNat % 16)] := by
                      simp [escapeChar, h1, h2, h3, h4, h5, h6, h7, h8]
                    rw [hesc]
                    simp only [List.cons_append, List.nil_append]
                    rw [parseJStringBody_unicode '0' '0'
                      (hexDigitChar (c.toNat / 16)) (hexDigitChar (c.toNat % 16))
                      0 0 (c.toNat / 16) (c.toNat % 16) (by decide) (by decide)
                      (hexVal_hexDigitChar _ (by omega)) (hexVal_hexDigitChar _ (by omega)),
                      ih rest]
                    have harith : ((0 * 16 + 0) * 16 + c.toNat / 16) * 16 + c.toNat % 16
                        = c.toNat := by omega
                    rw [harith, Char.ofNat_toNat]
                    rfl
                  · have hesc : escapeChar c = [c] := by
                      simp [escapeChar, h1, h2, h3, h4, h5, h6, h7, h8]
                    rw [hesc]
                    simp only [List.cons_append, List.nil_append]
                    rw [parseJStringBody_plain c h1 h2, ih rest]
                    rfl

theorem expectChars_append : ∀ (pat rest : List Char), expectChars pat (pat ++ rest) = some rest := by
  intro pat
  induction pat with
  | nil => intro rest; rfl
  | cons p ps ih =>
    intro rest
    show expectChars (p :: ps) (p :: (ps ++ rest)) = some rest
    rw [expectChars]
    simp [ih]

/-- Parsing inverts the object serialization of one problem. -/
theorem parseProblem_dumps (p : Problem) (rest : List Char) :
    parseProblem (dumpsProblemChars p ++ rest) = some (p, rest) := by
  show parseProblem (midPart ++ _) = some (p, rest)
  rw [parseProblem]
  simp only [dumpsProblemChars, List.append_eq, List.nil_append, List.append_assoc,
    List.cons_append, expectChars_append, parseJStringBody_escape]
  simp

/-- Parsing inverts the comma-joined serialization of a nonempty
problems list, given enough fuel. -/
theorem parseProblemsAux_dumps : ∀ (ps : List Problem) (fuel : Nat) (rest : List Char),
    ps ≠ [] → ps.length ≤ fuel →
    parseProblemsAux fuel (joinCommaSpace (ps.map dumpsProblemChars) ++ ']' :: rest)
      = some (ps, rest) := by
  intro ps
  induction ps with
  | nil => intro fuel rest h; cases h rfl
  | cons p ps' ih =>
    intro fuel rest _ hlen
    rcases fuel with _ | fuel'
    · simp at hlen
    rcases ps' with _ | ⟨q, qs⟩
    · show parseProblemsAux (fuel' + 1) (dumpsProblemChars p ++ ']' :: rest) = some ([p], rest)
      rw [parseProblemsAux]
      simp [parseProblem_dumps]
    · show parseProblemsAux (fuel' + 1)
          ((dumpsProblemChars p ++ ',' :: ' ' :: joinCommaSpace ((q :: qs).map dumpsProblemChars))
            ++ ']' :: rest) = some (p :: q :: qs, rest)
      rw [List.append_assoc, List.cons_append, List.cons_append, parseProblemsAux]
      simp only [parseProblem_dumps]
      have hlen' : (q :: qs).length ≤ fuel' := by
        simp only [List.length_cons] at hlen ⊢
        omega
      have hrec := ih fuel' rest (by simp) hlen'
      simp only [List.map_cons] at hrec ⊢
      simp [hrec]

theorem dumpsProblemChars_ne_nil (p : Problem) : dumpsProblemChars p ≠ [] := by
  simp [dumpsProblemChars, midPart]

theorem joinCommaSpace_length_ge : ∀ (ls : List (List Char)), (∀ x ∈ ls, x ≠ []) →
    ls.length ≤ (joinCommaSpace ls).length := by
  intro ls
  induction ls with
  | nil => intro _; simp [joinCommaSpace]
  | cons x ls' ih =>
    intro hne
    rcases ls' with _ | ⟨y, ys⟩
    · have hx : 0 < x.length := List.length_pos.mpr (hne x (List.mem_cons_self _ _))
      simpa [joinCommaSpace] using hx
    · have h1 := ih (fun z hz => hne z (List.mem_cons_of_mem _ hz))
      show (x :: y :: ys).length ≤ (x ++ ',' :: ' ' :: joinCommaSpace (y :: ys)).length
      have hx : 0 < x.length := List.length_pos.mpr (hne x (List.mem_cons_self _ _))
      simp only [List.length_cons, List.length_append] at h1 ⊢
      omega

/-- Round trip: `json.loads` recovers exactly the problems list serialized
into `All_Problems_JSON`. -/
theorem parseProblems_dumpsProblems (ps : List Problem) :
    parseProblems (dumpsProblems ps) = some ps := by
  rcases ps with _ | ⟨p, ps'⟩
  · rfl
  · have hdata : (dumpsProblems (p :: ps')).data
        = '[' :: (joinCommaSpace ((p :: ps').map dumpsProblemChars) ++ [']']) := rfl
    have hne : ∀ x ∈ (p :: ps').map dumpsProblemChars, x ≠ [] := by
      intro x hx
      rcases List.mem_map.mp hx with ⟨q, _, rfl⟩
      exact dumpsProblemChars_ne_nil q
    have hlen : (p :: ps').length ≤ (dumpsProblems (p :: ps')).length := by
      have h1 := joinCommaSpace_length_ge ((p :: ps').map dumpsProblemChars) hne
      have h2 : (dumpsProblems (p :: ps')).length
          = (joinCommaSpace ((p :: ps').map dumpsProblemChars)).length + 2 := by
        show ('[' :: (joinCommaSpace ((p :: ps').map dumpsProblemChars) ++ [']'])).length = _
        simp
      have h3 : ((p :: ps').map dumpsProblemChars).length = (p :: ps').length :=
        List.length_map _ _
      omega
    obtain ⟨T, hT⟩ : ∃ T, joinCommaSpace ((p :: ps').map dumpsProblemChars) = '\x7b' :: T := by
      rcases ps' with _ | ⟨q, qs⟩
      · exact ⟨_, rfl⟩
      · exact ⟨_, rfl⟩
    have haux := parseProblemsAux_dumps (p :: ps') (dumpsProblems (p :: ps')).length []
      (by simp) hlen
    rw [hT] at haux
    have hdata2 : (dumpsProblems (p :: ps')).data = '[' :: '\x7b' :: (T ++ [']']) := by
      rw [hdata, hT]
      simp
    rw [parseProblems.eq_def, hdata2]
    simp only [List.cons_append] at haux
    simp [haux]

/-- C9: for every record with a present classification result, the
`All_Problems_JSON` column holds `json.dumps` of the same problems list that
builds the concatenated, fixed-slot and normalized views, and parsing that
column recovers exactly that list (parse after serialize is the identity). -/
theorem problems_json_roundtrip (df : List Record)
    (results : List (Nat × Option ClassificationResult)) (idx : Nat)
    (r : ClassificationResult)
    (hmem : (idx, some r) ∈ results)
    (hnodup : (results.map Prod.fst).Nodup) :
    (∀ rec : Record, df[idx]? = some rec →
        (add_results_enriched df results)[idx]? = some (rec, applyResult r))
    ∧ (applyResult r).All_Problems_JSON = dumpsProblems r.problems
    ∧ parseProblems ((applyResult r).All_Problems_JSON) = some r.problems
    ∧ (applyResult r).Part_Assembly_Concat
        = (if r.problems.isEmpty then ""
           else String.intercalate " | " (r.problems.map (fun p => p.part)))
    ∧ (applyResult r).Part_1 = slotField r.problems 0 (fun p => p.part)
    ∧ (add_results_normalized df results).filter (fun row => row.Row_Index == idx)
        = problemRows (serviceOrderAt df idx) idx r.problems := by
  have hlook := lookupResult_eq_of_mem results idx (some r) hmem hnodup
  refine ⟨?_, rfl, ?_, rfl, rfl, ?_⟩
  · intro rec hrec
    have h := add_results_enriched_getElem df results idx rec hrec
    rw [hlook] at h
    exact h
  · show parseProblems (dumpsProblems r.problems) = some r.problems
    exact parseProblems_dumpsProblems r.problems
  · rw [normalized_filter_eq df results idx hnodup, hlook]

/-- C9 witness: a result with quotes and a newline in its fields
round-trips through the JSON column. -/
theorem problems_json_roundtrip_witness :
    ((0, some (⟨⟨1, "high"⟩,
        [⟨"Pump", "Leak", "Seal \"A\" replaced", "high", "first\nline"⟩]⟩ : ClassificationResult))
      ∈ [(0, some (⟨⟨1, "high"⟩,
        [⟨"Pump", "Leak", "Seal \"A\" replaced", "high", "first\nline"⟩]⟩ : ClassificationResult))])
    ∧ parseProblems ((applyResult (⟨⟨1, "high"⟩,
        [⟨"Pump", "Leak", "Seal \"A\" replaced", "high", "first\nline"⟩]⟩ :
          ClassificationResult)).All_Problems_JSON)
      = some [⟨"Pump", "Leak", "Seal \"A\" replaced", "high", "first\nline"⟩] := by
  have h := (problems_json_roundtrip [⟨"SO-100", "", "", "", ""⟩]
    [(0, some ⟨⟨1, "high"⟩, [⟨"Pump", "Leak", "Seal \"A\" replaced", "high", "first\nline"⟩]⟩)]
    0 ⟨⟨1, "high"⟩, [⟨"Pump", "Leak", "Seal \"A\" replaced", "high", "first\nline"⟩]⟩
    (by decide) (by decide)).2.2.1
  exact ⟨by decide, h⟩

/-- C1 witness: with an always-failing oracle the result is still present. -/
theorem classification_total_witness :
    ∃ c, (process_single_call (fun _ => none) 0 3).2 = some c
    ∧ ((∃ k : Int, 0 ≤ k ∧ k < 3 ∧ (fun _ => none : Int → Option ClassificationResult) k = some c
          ∧ ∀ j : Int, 0 ≤ j → j < k →
              (fun _ => none : Int → Option ClassificationResult) j = none)
      ∨ (c = degradedResult ∧ ∀ j : Int, 0 ≤ j → j < 3 →
          (fun _ => none : Int → Option ClassificationResult) j = none)) :=
  classification_total (fun _ => none) 0

/-- C4 witness: a concrete second incremental run selects nothing. -/
theorem incremental_idempotent_witness :
    find_new_service_orders (fun s : String => s) ["A", "B"]
      (some (merge_processed_data (some ["A"])
        (find_new_service_orders (fun s : String => s) ["A", "B"] (some ["A"])))) = [] :=
  incremental_idempotent (fun s : String => s) ["A", "B"] (some ["A"])

/-- C5 witness: merging two concrete tables appends them and adds lengths. -/
theorem merge_monotonic_witness :
    merge_processed_data (some ["A"]) ["B"] = ["A"] ++ ["B"]
    ∧ (merge_processed_data (some (["A"] : List String)) ["B"]).length = 2 := by
  have h := merge_monotonic (fun s : String => s) ["A"] ["B"]
  refine ⟨h.2.2.1, ?_⟩
  rw [h.2.2.2.1]
  rfl
